import Mathlib

/-!
Verification development for the logsentinel-express telemetry client.

The development shallowly embeds the core of the repository:
* `src/utils/formatter.ts` — the sanitizer (`sanitize`, `recursiveSanitize`,
  `capSize`, `safeStringify`, `sanitizeHeaders`);
* `src/core/sender.ts` — the bounded queue / flush scheduler / retrying
  dispatcher (`LogQueue.push`, `LogQueue.flush`, `LogQueue.sendBatch`,
  `LogQueue.setupGracefulShutdown`);
* `src/core/config.ts` — `ConfigManager.isValid`.

JavaScript object graphs (which may be cyclic and may share sub-objects) are
modelled as an explicit heap: composite values are addresses into a list of
nodes.  The sanitizer's `WeakSet` of visited objects becomes a list of visited
addresses.  The module-level `SENSITIVE_PATTERNS` regexes carry the `g` flag in
the source, so each regex object keeps a mutable `lastIndex` across `.test`
calls; that state is modelled explicitly as one `Nat` per pattern and threaded
through the sanitizer exactly as the JavaScript engine threads it.
-/

namespace LogSentinel

/-- A JavaScript value: a primitive, or a reference to a heap node. -/
inductive HValue where
  | hnull
  | hbool (b : Bool)
  | hnum (n : Int)
  | hstr (s : String)
  | href (a : Nat)
deriving DecidableEq, Repr

/-- A heap node: a plain object (ordered fields) or an array. -/
inductive HNode where
  | hobj (fields : List (String × HValue))
  | harr (items : List HValue)
deriving DecidableEq, Repr

/-- The heap: node `a` is `nodes[a]`. -/
structure Heap where
  nodes : List HNode
deriving DecidableEq, Repr

def heapGet (h : Heap) (a : Nat) : Option HNode :=
  h.nodes[a]?

/-- Output of the sanitizer: a fresh acyclic value tree, as built by
`recursiveSanitize` (which always constructs new objects/arrays). -/
inductive JValue where
  | vnull
  | vbool (b : Bool)
  | vnum (n : Int)
  | vstr (s : String)
  | varr (items : List JValue)
  | vobj (fields : List (String × JValue))
deriving Repr

/-- Image of a primitive `HValue` in the output tree.  (`href` cannot reach
this function in the sanitizer; it is mapped to `vnull` for totality.) -/
def primToJ : HValue → JValue
  | HValue.hnull => JValue.vnull
  | HValue.hbool b => JValue.vbool b
  | HValue.hnum n => JValue.vnum n
  | HValue.hstr s => JValue.vstr s
  | HValue.href _ => JValue.vnull

/-- `value && typeof value === 'object'`: only an object reference passes
(`null` has typeof object but is falsy). -/
def isCompositeV : HValue → Bool
  | HValue.href _ => true
  | _ => false

/-! ### The `SENSITIVE_PATTERNS` regexes, with their `g`-flag state

Each pattern in `formatter.ts` is a case-insensitive literal, in three cases
with an optional `[_-]` in the middle.  A pattern is a list of atoms; `pch c`
matches the character `c` case-insensitively, `popt cs` optionally consumes one
character from `cs`. -/

inductive PatAtom where
  | pch (c : Char)
  | popt (cs : List Char)
deriving DecidableEq, Repr

def strAtoms (s : String) : List PatAtom :=
  s.toList.map PatAtom.pch

/-- The ten regexes of `SENSITIVE_PATTERNS`, in source order. -/
def sensitivePatterns : List (List PatAtom) :=
  [ strAtoms "password"
  , strAtoms "token"
  , strAtoms "api" ++ [PatAtom.popt ['_', '-']] ++ strAtoms "key"
  , strAtoms "secret"
  , strAtoms "authorization"
  , strAtoms "bearer"
  , strAtoms "auth"
  , strAtoms "credit" ++ [PatAtom.popt ['_', '-']] ++ strAtoms "card"
  , strAtoms "ssn"
  , strAtoms "social" ++ [PatAtom.popt ['_', '-']] ++ strAtoms "security" ]

/-- Match the atom list against a prefix of `s`; return the number of
characters consumed (the `?` quantifier is greedy with backtracking, as in the
regex engine). -/
def matchAtoms : List PatAtom → List Char → Option Nat
  | [], _ => some 0
  | PatAtom.pch c :: rest, x :: xs =>
      if x.toLower = c then (matchAtoms rest xs).map (· + 1) else none
  | PatAtom.pch _ :: _, [] => none
  | PatAtom.popt cs :: rest, x :: xs =>
      if cs.contains x then
        match matchAtoms rest xs with
        | some n => some (n + 1)
        | none => matchAtoms rest xs
      else matchAtoms rest xs
  | PatAtom.popt _ :: rest, [] => matchAtoms rest []

/-- Search for the first match at position `pos` or later; `rest` is the input
suffix starting at `pos`.  Returns the absolute end index of the match. -/
def findMatchEnd (p : List PatAtom) : List Char → Nat → Option Nat
  | rest, pos =>
      match matchAtoms p rest with
      | some n => some (pos + n)
      | none =>
          match rest with
          | [] => none
          | _ :: rest' => findMatchEnd p rest' (pos + 1)

/-- `regex.test(s)` for a `g`-flagged regex: search starts at `lastIndex`; on a
match `lastIndex` becomes the end of the match, on failure it is reset to 0.
Returns (matched?, new lastIndex). -/
def regexTestG (p : List PatAtom) (lastIndex : Nat) (s : List Char) : Bool × Nat :=
  match findMatchEnd p (s.drop lastIndex) lastIndex with
  | some e => (true, e)
  | none => (false, 0)

/-- `SENSITIVE_PATTERNS.some(pattern => pattern.test(key))`: tests the patterns
in order, short-circuiting at the first success; every tested pattern's
`lastIndex` is updated, untested ones keep theirs. -/
def testSensitive : List (List PatAtom) → List Nat → List Char → Bool × List Nat
  | [], _, _ => (false, [])
  | _ :: _, [], _ => (false, [])
  | p :: ps, li :: lis, s =>
      let r := regexTestG p li s
      if r.1 then (true, r.2 :: lis)
      else
        let rec' := testSensitive ps lis s
        (rec'.1, r.2 :: rec'.2)

/-- The module-level regex state: one `lastIndex` per pattern, all 0 when the
module is first loaded. -/
def rsInit : List Nat := List.replicate 10 0

def isSensitiveJS (key : String) (rs : List Nat) : Bool × List Nat :=
  testSensitive sensitivePatterns rs key.toList

/-! ### `recursiveSanitize`, fuelled

The JavaScript function terminates because the `WeakSet` grows at every
descent into an unvisited object.  The embedding makes the recursion structural
on a fuel argument that bounds the number of such descents; the wrapper
`sanitizeJS` passes fuel `h.nodes.length + 1`, and `sanVF_total` below proves
this fuel is never exhausted — that theorem is the termination argument. -/

/-- Sanitize the fields of an object (`for (const [key, value] of
Object.entries(obj))` loop), threading the visited set and the regex state. -/
def sanFieldsAux
    (recur : HValue → List Nat → List Nat → Option (JValue × List Nat × List Nat)) :
    List (String × HValue) → List Nat → List Nat →
      Option (List (String × JValue) × List Nat × List Nat)
  | [], seen, rs => some ([], seen, rs)
  | (k, v) :: rest, seen, rs =>
      if (isSensitiveJS k rs).1 then
        match sanFieldsAux recur rest seen (isSensitiveJS k rs).2 with
        | some (out, seen', rs') => some ((k, JValue.vstr "[REDACTED]") :: out, seen', rs')
        | none => none
      else if isCompositeV v then
        match recur v seen (isSensitiveJS k rs).2 with
        | some (jv, seen1, rs1) =>
            match sanFieldsAux recur rest seen1 rs1 with
            | some (out, seen', rs') => some ((k, jv) :: out, seen', rs')
            | none => none
        | none => none
      else
        match sanFieldsAux recur rest seen (isSensitiveJS k rs).2 with
        | some (out, seen', rs') => some ((k, primToJ v) :: out, seen', rs')
        | none => none

/-- Sanitize the items of an array (`obj.map(item => recursiveSanitize(item,
seen))`). -/
def sanItemsAux
    (recur : HValue → List Nat → List Nat → Option (JValue × List Nat × List Nat)) :
    List HValue → List Nat → List Nat → Option (List JValue × List Nat × List Nat)
  | [], seen, rs => some ([], seen, rs)
  | v :: rest, seen, rs =>
      match recur v seen rs with
      | some (jv, seen1, rs1) =>
          match sanItemsAux recur rest seen1 rs1 with
          | some (out, seen', rs') => some (jv :: out, seen', rs')
          | none => none
      | none => none

/-- `recursiveSanitize(obj, seen)`.  `none` means the fuel ran out (shown
impossible for well-formed heaps and the wrapper's fuel). -/
def sanVF (h : Heap) : Nat → HValue → List Nat → List Nat →
    Option (JValue × List Nat × List Nat)
  | 0, v, seen, rs =>
      match v with
      | HValue.href a =>
          if a ∈ seen then some (JValue.vstr "[Circular Reference]", seen, rs) else none
      | prim => some (primToJ prim, seen, rs)
  | fuel + 1, v, seen, rs =>
      match v with
      | HValue.href a =>
          if a ∈ seen then some (JValue.vstr "[Circular Reference]", seen, rs)
          else
            match heapGet h a with
            | none => some (JValue.vnull, a :: seen, rs)
            | some (HNode.hobj fs) =>
                match sanFieldsAux (sanVF h fuel) fs (a :: seen) rs with
                | some (out, seen', rs') => some (JValue.vobj out, seen', rs')
                | none => none
            | some (HNode.harr xs) =>
                match sanItemsAux (sanVF h fuel) xs (a :: seen) rs with
                | some (out, seen', rs') => some (JValue.varr out, seen', rs')
                | none => none
      | prim => some (primToJ prim, seen, rs)

def fuelFor (h : Heap) : Nat := h.nodes.length + 1

/-- `sanitize(obj)`: primitives are returned as-is (without touching the
regexes); objects are recursed with a fresh `WeakSet`.  Returns the result and
the regex state left behind by the call. -/
def sanitizeJS (h : Heap) (v : HValue) (rs : List Nat) : Option (JValue × List Nat) :=
  match v with
  | HValue.href a =>
      match sanVF h (fuelFor h) (HValue.href a) [] rs with
      | some (j, _, rs') => some (j, rs')
      | none => none
  | prim => some (primToJ prim, rs)

/-! ### `safeStringify`

`JSON.stringify(obj, replacer)` where the replacer tracks a `WeakSet` of
visited composite values and turns a revisit into the string
`'[Circular Reference]'`.  The `Error`/`Date`/function/undefined branches of
the replacer concern value kinds outside the heap model and are not
represented.  JSON string escaping is restricted to quote and backslash (the
only characters relevant here). -/

def escChar (c : Char) : String :=
  if c = '"' then "\\\"" else if c = '\\' then "\\\\" else String.singleton c

def jsonQuote (s : String) : String :=
  "\"" ++ String.join (s.toList.map escChar) ++ "\""

def commaJoin : List String → String
  | [] => ""
  | [s] => s
  | s :: rest => s ++ "," ++ commaJoin rest

/-- JSON text of a primitive value.  (`href` cannot reach this function.) -/
def primStr : HValue → String
  | HValue.hnull => "null"
  | HValue.hbool b => cond b "true" "false"
  | HValue.hnum n => toString n
  | HValue.hstr s => jsonQuote s
  | HValue.href _ => "null"

def strFieldsAux (recur : HValue → List Nat → Option (String × List Nat)) :
    List (String × HValue) → List Nat → Option (List String × List Nat)
  | [], seen => some ([], seen)
  | (k, v) :: rest, seen =>
      match recur v seen with
      | some (sv, seen1) =>
          match strFieldsAux recur rest seen1 with
          | some (out, seen') => some ((jsonQuote k ++ ":" ++ sv) :: out, seen')
          | none => none
      | none => none

def strItemsAux (recur : HValue → List Nat → Option (String × List Nat)) :
    List HValue → List Nat → Option (List String × List Nat)
  | [], seen => some ([], seen)
  | v :: rest, seen =>
      match recur v seen with
      | some (sv, seen1) =>
          match strItemsAux recur rest seen1 with
          | some (out, seen') => some (sv :: out, seen')
          | none => none
      | none => none

/-- Serialization of one value under the replacer; the replacer has already
been applied to the value (circular check and `seen` insertion happen here,
exactly once per composite value). -/
def strVF (h : Heap) : Nat → HValue → List Nat → Option (String × List Nat)
  | 0, v, seen =>
      match v with
      | HValue.href a => if a ∈ seen then some (jsonQuote "[Circular Reference]", seen) else none
      | prim => some (primStr prim, seen)
  | fuel + 1, v, seen =>
      match v with
      | HValue.href a =>
          if a ∈ seen then some (jsonQuote "[Circular Reference]", seen)
          else
            match heapGet h a with
            | none => some ("null", a :: seen)
            | some (HNode.hobj fs) =>
                match strFieldsAux (strVF h fuel) fs (a :: seen) with
                | some (out, seen') => some ("\x7b" ++ commaJoin out ++ "\x7d", seen')
                | none => none
            | some (HNode.harr xs) =>
                match strItemsAux (strVF h fuel) xs (a :: seen) with
                | some (out, seen') => some ("[" ++ commaJoin out ++ "]", seen')
                | none => none
      | prim => some (primStr prim, seen)

/-- `safeStringify(obj)`. -/
def safeStringifyJS (h : Heap) (v : HValue) : Option String :=
  (strVF h (fuelFor h) v []).map Prod.fst

/-! ### `capSize` -/

/-- `MAX_BODY_SIZE = 10 * 1024`. -/
def MAX_BODY_SIZE : Nat := 10 * 1024

/-- JavaScript truthiness of a value (`if (!body) return body;`). -/
def jsTruthyH : HValue → Bool
  | HValue.hnull => false
  | HValue.hbool b => b
  | HValue.hnum n => decide (n ≠ 0)
  | HValue.hstr s => decide (s ≠ "")
  | HValue.href _ => true

/-- `capSize(body)`: falsy values returned as-is; an oversized string is
truncated to the budget plus the marker; any other value is serialized with
`safeStringify` and, if the serialization is oversized, replaced by its
truncation, otherwise the original value is returned. -/
def capSizeJS (h : Heap) (v : HValue) : HValue :=
  if jsTruthyH v = false then v
  else
    match v with
    | HValue.hstr s =>
        if MAX_BODY_SIZE < s.length then
          HValue.hstr (s.take MAX_BODY_SIZE ++ "... [truncated]")
        else HValue.hstr s
    | other =>
        match safeStringifyJS h other with
        | some st =>
            if MAX_BODY_SIZE < st.length then
              HValue.hstr (st.take MAX_BODY_SIZE ++ "... [truncated]")
            else other
        | none => HValue.hstr "[size capping failed]"

/-! ### `sanitizeHeaders` -/

def startsWithL : List Char → List Char → Bool
  | _, [] => true
  | [], _ :: _ => false
  | x :: xs, y :: ys => x = y && startsWithL xs ys

/-- Contiguous-substring test (`String.prototype.includes`). -/
def containsSub : List Char → List Char → Bool
  | [], pat => pat.isEmpty
  | x :: xs, pat => startsWithL (x :: xs) pat || containsSub xs pat

def containsSubStr (hay pat : String) : Bool :=
  containsSub hay.toList pat.toList

/-- `key.toLowerCase()`, character by character. -/
def toLowerStr (s : String) : String :=
  String.mk (s.toList.map Char.toLower)

/-- `sanitizeHeaders(headers)`: a header is redacted iff its lower-cased name
is exactly `authorization`, `cookie` or `x-api-key`, or contains `token` or
`secret`; every other header is copied unchanged. -/
def sanitizeHeadersJS (headers : List (String × String)) : List (String × String) :=
  headers.map (fun kv =>
    let lowerKey := toLowerStr kv.1
    if lowerKey == "authorization" || lowerKey == "cookie" || lowerKey == "x-api-key"
        || containsSubStr lowerKey "token" || containsSubStr lowerKey "secret" then
      (kv.1, "[REDACTED]")
    else kv)

/-! ### Configuration (`config.ts`) -/

structure ConfigM where
  apiKey : String
  baseUrl : String
  debug : Bool
deriving DecidableEq, Repr

/-- `ConfigManager.isValid`: `!!(apiKey && baseUrl)` — both strings must be
non-empty (truthy). -/
def isConfigValid (c : ConfigM) : Bool :=
  !(c.apiKey == "") && !(c.baseUrl == "")

/-! ### Log events and the wire transformation (`sender.ts`) -/

structure RequestLogM where
  method : String
  path : String
  url : String
  headers : List (String × String)
  body : Option JValue
  ip : Option String

structure ResponseLogM where
  statusCode : Int
  headers : List (String × String)
  body : Option JValue

structure LogEventM where
  timestamp : String
  duration : Int
  requestId : Option String
  request : RequestLogM
  response : Option ResponseLogM

/-- JavaScript truthiness of an (acyclic, already-captured) body value. -/
def jsTruthyJ : JValue → Bool
  | JValue.vnull => false
  | JValue.vbool b => b
  | JValue.vnum n => decide (n ≠ 0)
  | JValue.vstr s => decide (s ≠ "")
  | JValue.varr _ => true
  | JValue.vobj _ => true

/-- Plain `JSON.stringify` on an acyclic value tree (used for the request and
response bodies inside the wire transformation). -/
def jsonStrTree : JValue → String
  | JValue.vnull => "null"
  | JValue.vbool b => cond b "true" "false"
  | JValue.vnum n => toString n
  | JValue.vstr s => jsonQuote s
  | JValue.varr xs =>
      "[" ++ commaJoin (xs.attach.map (fun x => jsonStrTree x.1)) ++ "]"
  | JValue.vobj fs =>
      "\x7b" ++ commaJoin (fs.attach.map (fun kv => jsonQuote kv.1.1 ++ ":" ++ jsonStrTree kv.1.2)) ++ "\x7d"
termination_by v => sizeOf v
decreasing_by
  · have := List.sizeOf_lt_of_mem x.2
    simp only [JValue.varr.sizeOf_spec]
    omega
  · have h1 := List.sizeOf_lt_of_mem kv.2
    have h2 : sizeOf kv.1.2 < sizeOf kv.1 := by
      obtain ⟨k, v⟩ := kv.1
      simp only [Prod.mk.sizeOf_spec]
      omega
    simp only [JValue.vobj.sizeOf_spec]
    omega

structure WireRequest where
  method : String
  path : String
  headers : List (String × String)
  body : Option String
  ip : Option String
deriving DecidableEq, Repr

structure WireResponse where
  status : Int
  headers : List (String × String)
  body : Option String
  duration_ms : Int
deriving DecidableEq, Repr

/-- `TransformedLogEvent`. -/
structure WireEvent where
  timestamp : String
  trace_id : String
  request : WireRequest
  response : WireResponse
deriving DecidableEq, Repr

/-- The `logs.map(log => ...)` body of `sendBatch`.  `gen` is the value of the
freshly generated trace id (built in the source from `Date.now()` and
`Math.random()`, i.e. a nondeterministic fresh string); it is used iff
`log.requestId` is falsy. -/
def transformLog (gen : String) (log : LogEventM) : WireEvent :=
  { timestamp := log.timestamp
    trace_id :=
      match log.requestId with
      | some r => if r = "" then gen else r
      | none => gen
    request :=
      { method := log.request.method
        path := log.request.path
        headers := log.request.headers
        body :=
          match log.request.body with
          | some b => if jsTruthyJ b then some (jsonStrTree b) else none
          | none => none
        ip :=
          match log.request.ip with
          | some s => if s = "" then none else some s
          | none => none }
    response :=
      { status := match log.response with
          | some r => if r.statusCode = 0 then 0 else r.statusCode
          | none => 0
        headers := match log.response with
          | some r => r.headers
          | none => []
        body :=
          match log.response with
          | some r =>
              match r.body with
              | some b => if jsTruthyJ b then some (jsonStrTree b) else none
              | none => none
          | none => none
        duration_ms := log.duration } }

/-! ### The dispatcher / retry state machine (`sendBatch`)

The observable behaviour of one `sendBatch` call is its trace of outbound
HTTP posts and backoff delays, plus its outcome.  `oracle attempt idx = true`
means the transmission of batch item `idx` during attempt number `attempt`
gets a 2xx response; `false` means it throws (network error, non-2xx or
timeout), which aborts the remaining items of the attempt. -/

def MAX_RETRIES : Nat := 3
def INITIAL_RETRY_DELAY : Nat := 1000

inductive DispatchEv where
  | post (idx : Nat)
  | delay (ms : Nat)
deriving DecidableEq, Repr

inductive SendOutcome where
  | success
  | exhausted
deriving DecidableEq, Repr

/-- The sequential per-event send loop of one attempt: posts items starting at
index `idx` (`k` items remain) until one fails.  Returns the posts made and
whether the whole attempt succeeded. -/
def attemptPosts (oracle : Nat → Nat → Bool) (attempt : Nat) :
    Nat → Nat → List DispatchEv × Bool
  | 0, _ => ([], true)
  | k + 1, idx =>
      if oracle attempt idx then
        let r := attemptPosts oracle attempt k (idx + 1)
        (DispatchEv.post idx :: r.1, r.2)
      else ([DispatchEv.post idx], false)

/-- `sendBatch(logs, attempt)` for a batch of `n` events; `fuel` is the number
of retries still allowed (`MAX_RETRIES - attempt`).  The whole batch is
re-sent from index 0 on each retry, after a delay of
`INITIAL_RETRY_DELAY * 2 ^ (attempt - 1)`. -/
def sendBatchGo (c : ConfigM) (n : Nat) (oracle : Nat → Nat → Bool) :
    Nat → Nat → List DispatchEv × SendOutcome
  | fuel, attempt =>
      if isConfigValid c = false then ([], SendOutcome.success)
      else
        let r := attemptPosts oracle attempt n 0
        if r.2 then (r.1, SendOutcome.success)
        else
          match fuel with
          | 0 => (r.1, SendOutcome.exhausted)
          | fuel' + 1 =>
              let d := INITIAL_RETRY_DELAY * 2 ^ (attempt - 1)
              let r' := sendBatchGo c n oracle fuel' (attempt + 1)
              (r.1 ++ DispatchEv.delay d :: r'.1, r'.2)

/-- A top-level `sendBatch(logs)` call (attempt 1, two retries allowed). -/
def sendBatchT (c : ConfigM) (n : Nat) (oracle : Nat → Nat → Bool) :
    List DispatchEv × SendOutcome :=
  sendBatchGo c n oracle (MAX_RETRIES - 1) 1

/-- The promise chain of `flush`: `.catch` turns a final failure into a
`logger.warn` diagnostic line; nothing is rethrown (the return type carries no
exception). -/
def dispatchAndReport (c : ConfigM) (n : Nat) (oracle : Nat → Nat → Bool) :
    List String :=
  match (sendBatchT c n oracle).2 with
  | SendOutcome.success => []
  | SendOutcome.exhausted => ["Failed to send batch after all retries"]

/-! ### The queue / flush-scheduler state machine (`LogQueue`)

One atomic step per event-loop turn of the source: a `push` call, a timer
tick, the completion (`finally` / `await` resumption) of an in-flight
`sendBatch`, or the SIGTERM/SIGINT handler up to its `await`.  In-flight
dispatches are tagged with their origin because only a `flush`-initiated
dispatch clears `isFlushing` on completion. -/

def MAX_QUEUE_SIZE : Nat := 1000
def BATCH_SIZE : Nat := 50

inductive BatchOrigin where
  | fromFlush
  | fromShutdown
deriving DecidableEq, Repr

structure QState (α : Type) where
  queue : List α
  flushing : Bool
  shuttingDown : Bool
  timerOn : Bool
  inFlight : List (BatchOrigin × List α)
deriving DecidableEq, Repr

inductive QStep (α : Type) where
  | push (e : α)
  | timerTick
  | complete (i : Nat)
  | sigterm
deriving DecidableEq, Repr

/-- The queue update inside `push`: evict the oldest entry when at capacity,
then append. -/
def pushQ {α : Type} (q : List α) (e : α) : List α :=
  (if MAX_QUEUE_SIZE ≤ q.length then q.drop 1 else q) ++ [e]

/-- `flush()`: no-op when already flushing or empty; otherwise snapshot the
queue, clear it, mark `flushing` and start an asynchronous dispatch. -/
def flushOp {α : Type} (s : QState α) : QState α :=
  if s.flushing || s.queue.isEmpty then s
  else { s with queue := [], flushing := true
              , inFlight := s.inFlight ++ [(BatchOrigin.fromFlush, s.queue)] }

def stepQ {α : Type} (s : QState α) : QStep α → QState α
  | QStep.push e =>
      if s.shuttingDown then s
      else if BATCH_SIZE ≤ (pushQ s.queue e).length then
        flushOp { s with queue := pushQ s.queue e }
      else { s with queue := pushQ s.queue e }
  | QStep.timerTick =>
      if s.timerOn && !s.queue.isEmpty then flushOp s else s
  | QStep.complete i =>
      match s.inFlight[i]? with
      | none => s
      | some (BatchOrigin.fromFlush, _) =>
          { s with inFlight := s.inFlight.eraseIdx i, flushing := false }
      | some (BatchOrigin.fromShutdown, _) =>
          { s with inFlight := s.inFlight.eraseIdx i }
  | QStep.sigterm =>
      if s.queue.isEmpty then { s with shuttingDown := true, timerOn := false }
      else { s with shuttingDown := true, timerOn := false, queue := []
                  , inFlight := s.inFlight ++ [(BatchOrigin.fromShutdown, s.queue)] }

def initQ (α : Type) : QState α :=
  { queue := [], flushing := false, shuttingDown := false, timerOn := true, inFlight := [] }

def runQ {α : Type} (s : QState α) (steps : List (QStep α)) : QState α :=
  List.foldl stepQ s steps

def Reachable {α : Type} (s : QState α) : Prop :=
  ∃ steps, runQ (initQ α) steps = s

/-- Number of in-flight dispatch sequences that were started by `flush()`. -/
def isFlushBatch {α : Type} (b : BatchOrigin × List α) : Bool :=
  match b.1 with
  | BatchOrigin.fromFlush => true
  | BatchOrigin.fromShutdown => false

def flushCount {α : Type} (l : List (BatchOrigin × List α)) : Nat :=
  (l.filter isFlushBatch).length

/-! ### Heap well-formedness (every reference points into the heap) -/

def refsValidVB (h : Heap) : HValue → Bool
  | HValue.href a => decide (a < h.nodes.length)
  | _ => true

def nodeValidB (h : Heap) : HNode → Bool
  | HNode.hobj fs => fs.all (fun kv => refsValidVB h kv.2)
  | HNode.harr xs => xs.all (refsValidVB h)

def wfHeap (h : Heap) : Bool :=
  h.nodes.all (nodeValidB h)

/-- The addresses not yet visited: the termination measure of
`recursiveSanitize`. -/
def unvisited (h : Heap) (seen : List Nat) : Finset Nat :=
  (Finset.range h.nodes.length).filter (fun a => a ∉ seen)

/-! ### Spec-side characterization of header redaction (for comparison with
`sanitizeHeadersJS`): a header name is redacted iff its lower-case form is in
a fixed exact-match list or contains `token` or `secret`. -/

def redactHeaderName (k : String) : Bool :=
  ["authorization", "cookie", "x-api-key"].contains (toLowerStr k)
    || containsSubStr (toLowerStr k) "token" || containsSubStr (toLowerStr k) "secret"

/-! ### Concrete fixtures used by the claim theorems -/

/-- `{password: "x", passwordConfirm: "y"}`. -/
def heapPwdConfirm : Heap :=
  ⟨[HNode.hobj [("password", HValue.hstr "x"), ("passwordConfirm", HValue.hstr "y")]]⟩

/-- `{password: "secret123"}`. -/
def heapPwd : Heap :=
  ⟨[HNode.hobj [("password", HValue.hstr "secret123")]]⟩

/-- `{username: "john", password: "secret123"}`. -/
def heapUserPwd : Heap :=
  ⟨[HNode.hobj [("username", HValue.hstr "john"), ("password", HValue.hstr "secret123")]]⟩

/-- A self-referential object `x = {name: "john", self: x}`. -/
def heapCyc : Heap :=
  ⟨[HNode.hobj [("name", HValue.hstr "john"), ("self", HValue.href 0)]]⟩

/-- An acyclic graph with sharing: `child = {x: "v"}`,
`root = {a: child, b: child}`. -/
def heapShared : Heap :=
  ⟨[HNode.hobj [("a", HValue.href 1), ("b", HValue.href 1)], HNode.hobj [("x", HValue.hstr "v")]]⟩

/-- `{x: "v"}` alone. -/
def heapSmallObj : Heap :=
  ⟨[HNode.hobj [("x", HValue.hstr "v")]]⟩

/-- An event with no `requestId` (so the wire transformation must generate a
trace id). -/
def evNoId : LogEventM :=
  { timestamp := "t"
    duration := 5
    requestId := none
    request :=
      { method := "GET"
        path := "/a"
        url := "/a"
        headers := []
        body := none
        ip := none }
    response := none }

/-- The same event with a correlation id supplied. -/
def evWithId : LogEventM :=
  { evNoId with requestId := some "req_1" }

/-- Trace refuting the flush-mutex claim: 50 pushes trigger a size-based
flush (which is still dispatching), one more event is pushed, then the
shutdown signal drains the queue through `sendBatch` without checking
`isFlushing` — two dispatch sequences are now in flight. -/
def mutexCexSteps : List (QStep Nat) :=
  ((List.range 51).map QStep.push) ++ [QStep.sigterm]

/-- A state in which a flush is in flight and the queue is empty; from here
`push` never triggers a dispatch, realizing the "no flush occurring" premise
of the bounded-memory claim. -/
def busyState (α : Type) : QState α :=
  { queue := [], flushing := true, shuttingDown := false, timerOn := true
    , inFlight := [(BatchOrigin.fromFlush, [])] }

/-! ## Claim theorems -/

/-- C5: for every batch, if the configuration lacks the credential or the
endpoint (in particular when it lacks both), `sendBatch` makes no network
call, schedules no retry and reports success silently. -/
theorem claim5_config_gating (c : ConfigM) (n : Nat) (oracle : Nat → Nat → Bool)
    (h : c.apiKey = "" ∨ c.baseUrl = "") :
    sendBatchT c n oracle = ([], SendOutcome.success) := by
  have hv : isConfigValid c = false := by
    rcases h with h | h <;> simp [isConfigValid, h]
  simp [sendBatchT, sendBatchGo, hv]

/-- C5 witness: with an empty `apiKey`, pushing a 50-event batch through the
dispatcher produces no transmission even if the network would accept
everything. -/
theorem claim5_config_gating_witness :
    (ConfigM.mk "" "https://collector.example" false).apiKey = "" ∧
      sendBatchT (ConfigM.mk "" "https://collector.example" false) 50 (fun _ _ => true)
        = ([], SendOutcome.success) :=
  ⟨rfl, claim5_config_gating (ConfigM.mk "" "https://collector.example" false) 50
    (fun _ _ => true) (Or.inl rfl)⟩

/-- C3: a batch whose transmissions always fail is attempted exactly three
times, each attempt restarting from batch index 0, with a 1000 ms delay
before attempt 2 and a 2000 ms delay before attempt 3; afterwards the batch
is dropped with outcome `exhausted`, and the flush wrapper converts that into
a diagnostic line instead of an exception. -/
theorem claim3_retry_schedule (c : ConfigM) (n : Nat) (oracle : Nat → Nat → Bool)
    (hc : isConfigValid c = true) (hn : 0 < n) (hf : ∀ a i, oracle a i = false) :
    sendBatchT c n oracle
        = ([DispatchEv.post 0, DispatchEv.delay 1000, DispatchEv.post 0,
            DispatchEv.delay 2000, DispatchEv.post 0], SendOutcome.exhausted) ∧
      dispatchAndReport c n oracle = ["Failed to send batch after all retries"] := by
  obtain ⟨m, rfl⟩ : ∃ m, n = m + 1 := ⟨n - 1, by omega⟩
  have hstep : ∀ a, attemptPosts oracle a (m + 1) 0 = ([DispatchEv.post 0], false) := by
    intro a; simp [attemptPosts, hf]
  have htrace : sendBatchT c (m + 1) oracle
      = ([DispatchEv.post 0, DispatchEv.delay 1000, DispatchEv.post 0,
          DispatchEv.delay 2000, DispatchEv.post 0], SendOutcome.exhausted) := by
    simp [sendBatchT, sendBatchGo, hc, hstep, MAX_RETRIES, INITIAL_RETRY_DELAY]
  exact ⟨htrace, by simp [dispatchAndReport, htrace]⟩

/-- C3 witness: the schedule realized on a concrete 2-event batch against a
network that always fails. -/
theorem claim3_retry_schedule_witness :
    isConfigValid (ConfigM.mk "key_1" "https://collector.example" false) = true ∧ 0 < 2 ∧
      (sendBatchT (ConfigM.mk "key_1" "https://collector.example" false) 2 (fun _ _ => false)
          = ([DispatchEv.post 0, DispatchEv.delay 1000, DispatchEv.post 0,
              DispatchEv.delay 2000, DispatchEv.post 0], SendOutcome.exhausted) ∧
        dispatchAndReport (ConfigM.mk "key_1" "https://collector.example" false) 2
            (fun _ _ => false)
          = ["Failed to send batch after all retries"]) :=
  ⟨rfl, by decide,
    claim3_retry_schedule (ConfigM.mk "key_1" "https://collector.example" false) 2
      (fun _ _ => false) rfl (by decide) (fun _ _ => rfl)⟩

/-- C4: the claim says every key matching a sensitive pattern is redacted, on
every invocation.  The `g`-flagged module-level regexes keep their
`lastIndex` across `.test` calls, so this fails: within a single call,
`{password: "x", passwordConfirm: "y"}` leaves `passwordConfirm` unredacted
(the `/password/gi` regex starts its scan at offset 8); and across two
consecutive calls on `{password: "secret123"}` the second call returns the
password in the clear. -/
theorem claim4_redaction_stateful_bug :
    sanitizeJS heapPwdConfirm (HValue.href 0) rsInit
        = some (JValue.vobj [("password", JValue.vstr "[REDACTED]"),
                            ("passwordConfirm", JValue.vstr "y")], rsInit) ∧
      sanitizeJS heapPwd (HValue.href 0) rsInit
          = some (JValue.vobj [("password", JValue.vstr "[REDACTED]")],
                  [8, 0, 0, 0, 0, 0, 0, 0, 0, 0]) ∧
      sanitizeJS heapPwd (HValue.href 0) [8, 0, 0, 0, 0, 0, 0, 0, 0, 0]
          = some (JValue.vobj [("password", JValue.vstr "secret123")], rsInit) :=
  ⟨rfl, rfl, rfl⟩

/-- C9 counterexample: the wire transformation of an event with no
`requestId` embeds a freshly generated trace id, so two transformations of
the same event under the same configuration differ. -/
theorem claim9_wire_determinism_cex :
    transformLog "trace_gen1" evNoId ≠ transformLog "trace_gen2" evNoId := by
  decide

/-- C9 amended: the WireEvent is a pure function of the source event whenever
the event carries a (non-empty) correlation id; only the generated-trace-id
fallback is nondeterministic. -/
theorem claim9_wire_determinism_amended (log : LogEventM) (r : String)
    (h1 : log.requestId = some r) (h2 : r ≠ "") (g1 g2 : String) :
    transformLog g1 log = transformLog g2 log := by
  simp [transformLog, h1, h2]

/-- C9 witness: an event carrying `requestId = "req_1"` transforms
identically under two different generated ids. -/
theorem claim9_wire_determinism_amended_witness :
    evWithId.requestId = some "req_1" ∧ ("req_1" : String) ≠ "" ∧
      transformLog "trace_gen1" evWithId = transformLog "trace_gen2" evWithId :=
  ⟨rfl, by decide,
    claim9_wire_determinism_amended evWithId "req_1" rfl (by decide) "trace_gen1" "trace_gen2"⟩

/-- C8 counterexample: a header named exactly `api-key` is NOT redacted by
the code (the exact-match list contains `x-api-key`, not `api-key`), refuting
the claim that `api-key` is an exact match. -/
theorem claim8_header_redaction_cex :
    sanitizeHeadersJS [("api-key", "k123")] = [("api-key", "k123")] ∧
      sanitizeHeadersJS [("api-key", "k123")] ≠ [("api-key", "[REDACTED]")] := by
  exact ⟨rfl, by decide⟩

/-- C8 amended: `sanitizeHeaders` redacts exactly the headers whose
lower-cased name is `authorization`, `cookie` or `x-api-key`, or contains
`token` or `secret`; every other header passes through unchanged. -/
theorem claim8_header_redaction_amended (hs : List (String × String)) :
    sanitizeHeadersJS hs
      = hs.map (fun kv => if redactHeaderName kv.1 then (kv.1, "[REDACTED]") else kv) := by
  unfold sanitizeHeadersJS
  congr 1
  funext kv
  have hcond : (toLowerStr kv.1 == "authorization" || toLowerStr kv.1 == "cookie"
      || toLowerStr kv.1 == "x-api-key" || containsSubStr (toLowerStr kv.1) "token"
      || containsSubStr (toLowerStr kv.1) "secret") = redactHeaderName kv.1 := by
    simp only [redactHeaderName, List.contains]
    cases hA : toLowerStr kv.1 == "authorization" <;>
      cases hB : toLowerStr kv.1 == "cookie" <;>
      cases hC : toLowerStr kv.1 == "x-api-key" <;>
      simp [List.elem, hA, hB, hC]
  simp only [hcond]

/-- C7: a string longer than the 10240-character budget is truncated to the
first 10240 characters plus the `... [truncated]` marker; a string at or
under the budget is returned unchanged; for a structured (composite) value
the cap is applied to its `safeStringify` serialization — an oversized
serialization is truncated, otherwise the original value is returned. -/
theorem claim7_size_capping :
    (∀ (h : Heap) (s : String), MAX_BODY_SIZE < s.length →
        capSizeJS h (HValue.hstr s)
          = HValue.hstr (s.take MAX_BODY_SIZE ++ "... [truncated]")) ∧
      (∀ (h : Heap) (s : String), s.length ≤ MAX_BODY_SIZE →
        capSizeJS h (HValue.hstr s) = HValue.hstr s) ∧
      (∀ (h : Heap) (a : Nat) (st : String), safeStringifyJS h (HValue.href a) = some st →
        capSizeJS h (HValue.href a)
          = if MAX_BODY_SIZE < st.length then
              HValue.hstr (st.take MAX_BODY_SIZE ++ "... [truncated]")
            else HValue.href a) := by
  refine ⟨?_, ?_, ?_⟩
  · intro h s hlen
    have hne : s ≠ "" := by
      intro e
      rw [e] at hlen
      have h0 : ("" : String).length = 0 := rfl
      omega
    simp [capSizeJS, jsTruthyH, hne, hlen]
  · intro h s hlen
    by_cases he : s = ""
    · subst he
      simp [capSizeJS, jsTruthyH]
    · simp [capSizeJS, jsTruthyH, he, Nat.not_lt.mpr hlen]
  · intro h a st hst
    simp [capSizeJS, jsTruthyH, hst]

/-- C7 witness: a 20000-character string is truncated to 10240 characters
plus the marker, a 100-character string is unchanged, and a small object is
returned unchanged because its serialization fits the budget. -/
theorem claim7_size_capping_witness :
    (MAX_BODY_SIZE < (String.mk (List.replicate 20000 'a')).length ∧
        capSizeJS heapSmallObj (HValue.hstr (String.mk (List.replicate 20000 'a')))
          = HValue.hstr ((String.mk (List.replicate 20000 'a')).take MAX_BODY_SIZE
              ++ "... [truncated]")) ∧
      ((String.mk (List.replicate 100 'a')).length ≤ MAX_BODY_SIZE ∧
        capSizeJS heapSmallObj (HValue.hstr (String.mk (List.replicate 100 'a')))
          = HValue.hstr (String.mk (List.replicate 100 'a'))) ∧
      (safeStringifyJS heapSmallObj (HValue.href 0) = some "\x7b\"x\":\"v\"\x7d" ∧
        capSizeJS heapSmallObj (HValue.href 0)
          = if MAX_BODY_SIZE < ("\x7b\"x\":\"v\"\x7d" : String).length then
              HValue.hstr (("\x7b\"x\":\"v\"\x7d" : String).take MAX_BODY_SIZE
                ++ "... [truncated]")
            else HValue.href 0) := by
  have h20 : (String.mk (List.replicate 20000 'a')).length = 20000 := by
    show (List.replicate 20000 'a').length = 20000
    exact List.length_replicate 20000 'a'
  have h100 : (String.mk (List.replicate 100 'a')).length = 100 := by
    show (List.replicate 100 'a').length = 100
    exact List.length_replicate 100 'a'
  refine ⟨⟨?_, ?_⟩, ⟨?_, ?_⟩, ⟨?_, ?_⟩⟩
  · rw [h20]; norm_num [MAX_BODY_SIZE]
  · exact claim7_size_capping.1 heapSmallObj _ (by rw [h20]; norm_num [MAX_BODY_SIZE])
  · rw [h100]; norm_num [MAX_BODY_SIZE]
  · exact claim7_size_capping.2.1 heapSmallObj _ (by rw [h100]; norm_num [MAX_BODY_SIZE])
  · rfl
  · exact claim7_size_capping.2.2 heapSmallObj 0 _ rfl

/-! ### The flushing-flag invariant (C1) -/

theorem flushCount_append_flush {α : Type} (l : List (BatchOrigin × List α)) (b : List α) :
    flushCount (l ++ [(BatchOrigin.fromFlush, b)]) = flushCount l + 1 := by
  simp [flushCount, List.filter_append, isFlushBatch]

theorem flushCount_append_shutdown {α : Type} (l : List (BatchOrigin × List α)) (b : List α) :
    flushCount (l ++ [(BatchOrigin.fromShutdown, b)]) = flushCount l := by
  simp [flushCount, List.filter_append, isFlushBatch]

theorem flushCount_eraseIdx {α : Type} :
    ∀ (l : List (BatchOrigin × List α)) (i : Nat) (x : BatchOrigin × List α),
      l[i]? = some x →
      flushCount (l.eraseIdx i) + (if isFlushBatch x then 1 else 0) = flushCount l := by
  intro l
  induction l with
  | nil => intro i x hx; simp at hx
  | cons hd tl ih =>
    intro i x hx
    cases i with
    | zero =>
      have hhd : hd = x := by simpa using hx
      subst hhd
      cases hfb : isFlushBatch hd <;>
        simp [flushCount, List.eraseIdx, List.filter, hfb]
    | succ j =>
      have hx' : tl[j]? = some x := by simpa using hx
      have hrec := ih j x hx'
      cases hfb : isFlushBatch hd <;>
        cases hfx : isFlushBatch x <;>
        simp [flushCount, List.eraseIdx, List.filter, hfb, hfx] at hrec ⊢ <;>
        omega

/-- The invariant: the number of `flush()`-initiated dispatch sequences in
flight is bounded by the `flushing` flag. -/
def QInv {α : Type} (s : QState α) : Prop :=
  flushCount s.inFlight ≤ (if s.flushing then 1 else 0)

theorem flushOp_inv {α : Type} (s : QState α) (h : QInv s) : QInv (flushOp s) := by
  unfold QInv flushOp at *
  split
  · exact h
  · rename_i hcond
    simp at hcond
    simp [hcond.1, flushCount_append_flush] at h ⊢
    omega

theorem stepQ_inv {α : Type} (s : QState α) (st : QStep α) (h : QInv s) :
    QInv (stepQ s st) := by
  cases st with
  | push e =>
    simp only [stepQ]
    split
    · exact h
    · split
      · exact flushOp_inv _ h
      · exact h
  | timerTick =>
    simp only [stepQ]
    split
    · exact flushOp_inv _ h
    · exact h
  | complete i =>
    simp only [stepQ]
    cases hg : s.inFlight[i]? with
    | none => simp only [hg]; exact h
    | some x =>
      obtain ⟨origin, b⟩ := x
      have hc := flushCount_eraseIdx s.inFlight i (origin, b) hg
      have hb : flushCount s.inFlight ≤ 1 := by
        unfold QInv at h
        cases hf : s.flushing <;> rw [hf] at h <;> simp at h <;> omega
      cases origin
      · simp only [hg]
        unfold QInv
        simp [isFlushBatch] at hc ⊢
        omega
      · simp only [hg]
        unfold QInv at h ⊢
        simp [isFlushBatch] at hc
        simpa [hc] using h
  | sigterm =>
    simp only [stepQ]
    split
    · exact h
    · unfold QInv at h ⊢
      simpa [flushCount_append_shutdown] using h

theorem runQ_inv {α : Type} :
    ∀ (steps : List (QStep α)) (s : QState α), QInv s → QInv (runQ s steps)
  | [], _, h => h
  | st :: rest, s, h => runQ_inv rest (stepQ s st) (stepQ_inv s st h)

set_option maxRecDepth 8000 in
/-- C1 counterexample: the claimed mutex property fails when the shutdown
drain is involved.  After 50 pushes a size-based flush starts dispatching;
one more push refills the queue; the SIGTERM handler then drains the queue
through `sendBatch` without checking `isFlushing`, so a reachable state has
two dispatch sequences in flight at once. -/
theorem claim1_flush_mutex_cex :
    Reachable (runQ (initQ Nat) mutexCexSteps) ∧
      (runQ (initQ Nat) mutexCexSteps).inFlight.length = 2 ∧
      (runQ (initQ Nat) mutexCexSteps).flushing = true :=
  ⟨⟨mutexCexSteps, rfl⟩, by rfl, by rfl⟩

/-- C1 amended: the `flushing` flag is a mutex for the size- and time-based
triggers — in every reachable state at most one `flush()`-initiated dispatch
sequence is in flight, and none when `flushing` is clear — but the shutdown
drain bypasses the flag and may add a concurrent dispatch of its own. -/
theorem claim1_flush_mutex_amended {α : Type} (s : QState α) (h : Reachable s) :
    flushCount s.inFlight ≤ (if s.flushing then 1 else 0) := by
  obtain ⟨steps, rfl⟩ := h
  exact runQ_inv steps (initQ α) (by simp [QInv, flushCount, initQ])

/-- C1 amended witness: the invariant instantiated at the initial state. -/
theorem claim1_flush_mutex_amended_witness :
    Reachable (initQ Nat) ∧
      flushCount (initQ Nat).inFlight ≤ (if (initQ Nat).flushing then 1 else 0) :=
  ⟨⟨[], rfl⟩, claim1_flush_mutex_amended (initQ Nat) ⟨[], rfl⟩⟩

/-! ### Bounded memory (C2) -/

theorem pushQ_length_le {α : Type} (q : List α) (e : α) (h : q.length ≤ MAX_QUEUE_SIZE) :
    (pushQ q e).length ≤ MAX_QUEUE_SIZE := by
  unfold pushQ
  split <;> rename_i hc <;>
    simp only [List.length_append, List.length_drop, List.length_cons,
      List.length_nil] <;>
    unfold MAX_QUEUE_SIZE at * <;> omega

/-- The queue after a sequence of raw `push` updates is the suffix of the
pushed sequence that fits the capacity. -/
theorem foldl_pushQ {α : Type} :
    ∀ (evs : List α) (q : List α), q.length ≤ MAX_QUEUE_SIZE →
      List.foldl pushQ q evs = (q ++ evs).drop ((q ++ evs).length - MAX_QUEUE_SIZE)
  | [], q, h => by
      have h0 : q.length - MAX_QUEUE_SIZE = 0 := by omega
      simp [h0]
  | e :: rest, q, h => by
      have h' := pushQ_length_le q e h
      have ih := foldl_pushQ rest (pushQ q e) h'
      rw [List.foldl_cons, ih]
      by_cases hq : MAX_QUEUE_SIZE ≤ q.length
      · have hlen : q.length = MAX_QUEUE_SIZE := le_antisymm h hq
        have hp : pushQ q e = q.drop 1 ++ [e] := by simp [pushQ, hq]
        have hq1 : 1 ≤ q.length := by
          rw [hlen]; norm_num [MAX_QUEUE_SIZE]
        have heq : (q.drop 1 ++ [e]) ++ rest = (q ++ e :: rest).drop 1 := by
          rw [List.append_assoc, List.drop_append_of_le_length hq1]
          simp
        rw [hp, heq, List.drop_drop]
        have hL : (q ++ e :: rest).length = q.length + (rest.length + 1) := by
          simp
        have harith : 1 + (((q ++ e :: rest).drop 1).length - MAX_QUEUE_SIZE)
            = (q ++ e :: rest).length - MAX_QUEUE_SIZE := by
          rw [List.length_drop, hL, hlen]
          unfold MAX_QUEUE_SIZE
          omega
        rw [harith]
      · have hp : pushQ q e = q ++ [e] := by simp [pushQ, hq]
        rw [hp, List.append_assoc]
        simp

theorem runQ_cons {α : Type} (s : QState α) (st : QStep α) (sts : List (QStep α)) :
    runQ s (st :: sts) = runQ (stepQ s st) sts := rfl

/-- While a flush is in flight (`flushing` set) and the queue is not shutting
down, a sequence of pushes only updates the queue through `pushQ`: the
flush triggers fired by `push` are no-ops. -/
theorem runQ_pushes {α : Type} :
    ∀ (evs : List α) (s : QState α), s.flushing = true → s.shuttingDown = false →
      runQ s (evs.map QStep.push) = { s with queue := List.foldl pushQ s.queue evs }
  | [], s, _, _ => by simp [runQ]
  | e :: rest, s, hf, hs => by
      have hstep : stepQ s (QStep.push e) = { s with queue := pushQ s.queue e } := by
        have hflush : ∀ X : QState α, X.flushing = true → flushOp X = X := by
          intro X hX
          simp [flushOp, hX]
        simp only [stepQ]
        rw [if_neg (by simp [hs] : ¬(s.shuttingDown = true))]
        split
        · exact hflush _ hf
        · rfl
      have ih := runQ_pushes rest { s with queue := pushQ s.queue e } hf hs
      calc runQ s ((e :: rest).map QStep.push)
          = runQ (stepQ s (QStep.push e)) (rest.map QStep.push) := rfl
        _ = runQ { s with queue := pushQ s.queue e } (rest.map QStep.push) := by rw [hstep]
        _ = { s with queue := List.foldl pushQ (pushQ s.queue e) rest } := ih
        _ = { s with queue := List.foldl pushQ s.queue (e :: rest) } := by
              rw [List.foldl_cons]

/-- C2: starting from an empty queue, with a flush already in flight (the
only code-consistent reading of "no flush occurring": size/time triggers are
no-ops while `isFlushing` holds), pushing more than 1000 events leaves
exactly the most recent 1000 of them, in their original relative order; and
a push against a full queue evicts exactly the single oldest entry before
appending, so the newest event always survives. -/
theorem claim2_bounded_memory {α : Type} (s0 : QState α) (evs : List α)
    (hq : s0.queue = []) (hf : s0.flushing = true) (hs : s0.shuttingDown = false)
    (hn : MAX_QUEUE_SIZE < evs.length) :
    (runQ s0 (evs.map QStep.push)).queue = evs.drop (evs.length - MAX_QUEUE_SIZE) ∧
      (runQ s0 (evs.map QStep.push)).queue.length = MAX_QUEUE_SIZE ∧
      (∀ (q : List α) (e : α), MAX_QUEUE_SIZE ≤ q.length →
        pushQ q e = q.drop 1 ++ [e]) := by
  have hrun := runQ_pushes evs s0 hf hs
  have hfold := foldl_pushQ evs ([] : List α) (by simp)
  have hqueue : (runQ s0 (evs.map QStep.push)).queue
      = evs.drop (evs.length - MAX_QUEUE_SIZE) := by
    rw [hrun]
    show List.foldl pushQ s0.queue evs = _
    rw [hq, hfold]
    simp
  refine ⟨hqueue, ?_, ?_⟩
  · rw [hqueue]
    simp [List.length_drop]
    omega
  · intro q e hcap
    simp [pushQ, hcap]

/-! ### Sanitizer termination and visited-set monotonicity (C6, C10) -/

theorem sanFieldsAux_mono
    (recur : HValue → List Nat → List Nat → Option (JValue × List Nat × List Nat))
    (hr : ∀ v s rs j s' rs', recur v s rs = some (j, s', rs') → s ⊆ s') :
    ∀ (fs : List (String × HValue)) (seen rs : List Nat) (out : List (String × JValue))
      (seen' rs' : List Nat),
      sanFieldsAux recur fs seen rs = some (out, seen', rs') → seen ⊆ seen' := by
  intro fs
  induction fs with
  | nil =>
    intro seen rs out seen' rs' h
    simp [sanFieldsAux] at h
    exact h.2.1 ▸ List.Subset.refl seen
  | cons kv rest ih =>
    obtain ⟨k, v⟩ := kv
    intro seen rs out seen' rs' h
    simp only [sanFieldsAux] at h
    split at h
    · cases hrec : sanFieldsAux recur rest seen (isSensitiveJS k rs).2 with
      | none => rw [hrec] at h; simp at h
      | some p =>
        obtain ⟨o1, s1, r1⟩ := p
        rw [hrec] at h
        simp at h
        exact h.2.1 ▸ ih seen _ o1 s1 r1 hrec
    · split at h
      · cases hv : recur v seen (isSensitiveJS k rs).2 with
        | none => rw [hv] at h; simp at h
        | some p =>
          obtain ⟨jv, s1, r1⟩ := p
          rw [hv] at h
          dsimp only at h
          cases hrec : sanFieldsAux recur rest s1 r1 with
          | none => rw [hrec] at h; simp at h
          | some p2 =>
            obtain ⟨o2, s2, r2⟩ := p2
            rw [hrec] at h
            simp at h
            exact h.2.1 ▸ List.Subset.trans (hr v seen _ jv s1 r1 hv)
              (ih s1 r1 o2 s2 r2 hrec)
      · cases hrec : sanFieldsAux recur rest seen (isSensitiveJS k rs).2 with
        | none => rw [hrec] at h; simp at h
        | some p =>
          obtain ⟨o1, s1, r1⟩ := p
          rw [hrec] at h
          simp at h
          exact h.2.1 ▸ ih seen _ o1 s1 r1 hrec

theorem sanItemsAux_mono
    (recur : HValue → List Nat → List Nat → Option (JValue × List Nat × List Nat))
    (hr : ∀ v s rs j s' rs', recur v s rs = some (j, s', rs') → s ⊆ s') :
    ∀ (xs : List HValue) (seen rs : List Nat) (out : List JValue) (seen' rs' : List Nat),
      sanItemsAux recur xs seen rs = some (out, seen', rs') → seen ⊆ seen' := by
  intro xs
  induction xs with
  | nil =>
    intro seen rs out seen' rs' h
    simp [sanItemsAux] at h
    exact h.2.1 ▸ List.Subset.refl seen
  | cons v rest ih =>
    intro seen rs out seen' rs' h
    simp only [sanItemsAux] at h
    cases hv : recur v seen rs with
    | none => rw [hv] at h; simp at h
    | some p =>
      obtain ⟨jv, s1, r1⟩ := p
      rw [hv] at h
      dsimp only at h
      cases hrec : sanItemsAux recur rest s1 r1 with
      | none => rw [hrec] at h; simp at h
      | some p2 =>
        obtain ⟨o2, s2, r2⟩ := p2
        rw [hrec] at h
        simp at h
        exact h.2.1 ▸ List.Subset.trans (hr v seen rs jv s1 r1 hv)
          (ih s1 r1 o2 s2 r2 hrec)

/-- The visited set only ever grows: `recursiveSanitize` never removes an
address from the `WeakSet`. -/
theorem sanVF_mono (h : Heap) :
    ∀ (fuel : Nat) (v : HValue) (seen rs : List Nat) (j : JValue) (seen' rs' : List Nat),
      sanVF h fuel v seen rs = some (j, seen', rs') → seen ⊆ seen' := by
  intro fuel
  induction fuel with
  | zero =>
    intro v seen rs j seen' rs' hv
    cases v with
    | href a =>
      simp only [sanVF] at hv
      split at hv
      · simp at hv
        exact hv.2.1 ▸ List.Subset.refl seen
      · simp at hv
    | hnull => simp [sanVF] at hv; exact hv.2.1 ▸ List.Subset.refl seen
    | hbool b => simp [sanVF] at hv; exact hv.2.1 ▸ List.Subset.refl seen
    | hnum n => simp [sanVF] at hv; exact hv.2.1 ▸ List.Subset.refl seen
    | hstr s => simp [sanVF] at hv; exact hv.2.1 ▸ List.Subset.refl seen
  | succ f ihf =>
    intro v seen rs j seen' rs' hv
    cases v with
    | href a =>
      simp only [sanVF] at hv
      split at hv
      · simp at hv
        exact hv.2.1 ▸ List.Subset.refl seen
      · cases hget : heapGet h a with
        | none =>
          rw [hget] at hv
          simp at hv
          exact hv.2.1 ▸ List.subset_cons_self a seen
        | some node =>
          rw [hget] at hv
          cases node with
          | hobj fs =>
            dsimp only at hv
            cases hsf : sanFieldsAux (sanVF h f) fs (a :: seen) rs with
            | none => rw [hsf] at hv; simp at hv
            | some p =>
              obtain ⟨o, s1, r1⟩ := p
              rw [hsf] at hv
              simp at hv
              exact hv.2.1 ▸ List.Subset.trans (List.subset_cons_self a seen)
                (sanFieldsAux_mono (sanVF h f) (ihf) fs (a :: seen) rs o s1 r1 hsf)
          | harr xs =>
            dsimp only at hv
            cases hsf : sanItemsAux (sanVF h f) xs (a :: seen) rs with
            | none => rw [hsf] at hv; simp at hv
            | some p =>
              obtain ⟨o, s1, r1⟩ := p
              rw [hsf] at hv
              simp at hv
              exact hv.2.1 ▸ List.Subset.trans (List.subset_cons_self a seen)
                (sanItemsAux_mono (sanVF h f) (ihf) xs (a :: seen) rs o s1 r1 hsf)
    | hnull => simp [sanVF] at hv; exact hv.2.1 ▸ List.Subset.refl seen
    | hbool b => simp [sanVF] at hv; exact hv.2.1 ▸ List.Subset.refl seen
    | hnum n => simp [sanVF] at hv; exact hv.2.1 ▸ List.Subset.refl seen
    | hstr s => simp [sanVF] at hv; exact hv.2.1 ▸ List.Subset.refl seen

theorem unvisited_cons (h : Heap) (a : Nat) (seen : List Nat) :
    unvisited h (a :: seen) = (unvisited h seen).erase a := by
  ext x
  simp [unvisited, Finset.mem_erase, Finset.mem_filter]
  tauto

theorem unvisited_antitone (h : Heap) {s1 s2 : List Nat} (hs : s1 ⊆ s2) :
    unvisited h s2 ⊆ unvisited h s1 := by
  intro x hx
  simp [unvisited, Finset.mem_filter] at hx ⊢
  exact ⟨hx.1, fun hc => hx.2 (hs hc)⟩

theorem sanFieldsAux_total
    (recur : HValue → List Nat → List Nat → Option (JValue × List Nat × List Nat))
    (seen0 : List Nat) (P : HValue → Prop)
    (hmono : ∀ v s rs j s' rs', recur v s rs = some (j, s', rs') → s ⊆ s')
    (hrec : ∀ v s rs, P v → seen0 ⊆ s → (recur v s rs).isSome = true) :
    ∀ (fs : List (String × HValue)) (seen rs : List Nat),
      (∀ kv ∈ fs, P kv.2) → seen0 ⊆ seen →
      (sanFieldsAux recur fs seen rs).isSome = true := by
  intro fs
  induction fs with
  | nil => intro seen rs _ _; simp [sanFieldsAux]
  | cons kv rest ih =>
    obtain ⟨k, v⟩ := kv
    intro seen rs hP hsub
    simp only [sanFieldsAux]
    split
    · have hres := ih seen (isSensitiveJS k rs).2
        (fun kv hkv => hP kv (List.mem_cons_of_mem _ hkv)) hsub
      cases hrec2 : sanFieldsAux recur rest seen (isSensitiveJS k rs).2 with
      | none => rw [hrec2] at hres; simp at hres
      | some p => obtain ⟨o, s', r'⟩ := p; simp
    · split
      · have h1 := hrec v seen (isSensitiveJS k rs).2
          (hP (k, v) (List.mem_cons_self _ _)) hsub
        cases hv : recur v seen (isSensitiveJS k rs).2 with
        | none => rw [hv] at h1; simp at h1
        | some p =>
          obtain ⟨jv, s1, r1⟩ := p
          have hsub1 : seen0 ⊆ s1 :=
            List.Subset.trans hsub (hmono v seen _ jv s1 r1 hv)
          have hres := ih s1 r1
            (fun kv hkv => hP kv (List.mem_cons_of_mem _ hkv)) hsub1
          cases hrec2 : sanFieldsAux recur rest s1 r1 with
          | none => rw [hrec2] at hres; simp at hres
          | some p2 =>
            obtain ⟨o2, s2, r2⟩ := p2
            simp [hrec2]
      · have hres := ih seen (isSensitiveJS k rs).2
          (fun kv hkv => hP kv (List.mem_cons_of_mem _ hkv)) hsub
        cases hrec2 : sanFieldsAux recur rest seen (isSensitiveJS k rs).2 with
        | none => rw [hrec2] at hres; simp at hres
        | some p => obtain ⟨o, s', r'⟩ := p; simp

theorem sanItemsAux_total
    (recur : HValue → List Nat → List Nat → Option (JValue × List Nat × List Nat))
    (seen0 : List Nat) (P : HValue → Prop)
    (hmono : ∀ v s rs j s' rs', recur v s rs = some (j, s', rs') → s ⊆ s')
    (hrec : ∀ v s rs, P v → seen0 ⊆ s → (recur v s rs).isSome = true) :
    ∀ (xs : List HValue) (seen rs : List Nat),
      (∀ v ∈ xs, P v) → seen0 ⊆ seen →
      (sanItemsAux recur xs seen rs).isSome = true := by
  intro xs
  induction xs with
  | nil => intro seen rs _ _; simp [sanItemsAux]
  | cons v rest ih =>
    intro seen rs hP hsub
    simp only [sanItemsAux]
    have h1 := hrec v seen rs (hP v (List.mem_cons_self _ _)) hsub
    cases hv : recur v seen rs with
    | none => rw [hv] at h1; simp at h1
    | some p =>
      obtain ⟨jv, s1, r1⟩ := p
      have hsub1 : seen0 ⊆ s1 :=
        List.Subset.trans hsub (hmono v seen rs jv s1 r1 hv)
      have hres := ih s1 r1 (fun v hv' => hP v (List.mem_cons_of_mem _ hv')) hsub1
      cases hrec2 : sanItemsAux recur rest s1 r1 with
      | none => rw [hrec2] at hres; simp at hres
      | some p2 => obtain ⟨o2, s2, r2⟩ := p2; simp [hrec2]

/-- With fuel exceeding the number of unvisited addresses, `recursiveSanitize`
never runs out: the real recursion terminates because every descent visits a
fresh address of a finite heap. -/
theorem sanVF_total (h : Heap) (hwf : wfHeap h = true) :
    ∀ (fuel : Nat) (v : HValue) (seen rs : List Nat),
      refsValidVB h v = true → (unvisited h seen).card < fuel →
      (sanVF h fuel v seen rs).isSome = true := by
  intro fuel
  induction fuel with
  | zero => intro v seen rs _ hcard; omega
  | succ f ihf =>
    intro v seen rs hv hcard
    cases v with
    | hnull => simp [sanVF]
    | hbool b => simp [sanVF]
    | hnum n => simp [sanVF]
    | hstr s => simp [sanVF]
    | href a =>
      by_cases hmem : a ∈ seen
      · simp [sanVF, hmem]
      · have ha : a < h.nodes.length := by
          simpa [refsValidVB] using hv
        have hnode : heapGet h a = some h.nodes[a] := by
          simp [heapGet, List.getElem?_eq_getElem ha]
        have hain : a ∈ unvisited h seen := by
          simp [unvisited, Finset.mem_filter, ha, hmem]
        have hcard' : (unvisited h (a :: seen)).card < f := by
          rw [unvisited_cons]
          have herase := Finset.card_erase_of_mem hain
          have hpos : 1 ≤ (unvisited h seen).card := Finset.card_pos.mpr ⟨a, hain⟩
          omega
        have hmem' : h.nodes[a] ∈ h.nodes := List.getElem_mem ha
        have hnodevalid : nodeValidB h (h.nodes[a]) = true :=
          (List.all_eq_true.mp hwf) _ hmem'
        have hfuelrec : ∀ v' s' rs', refsValidVB h v' = true → (a :: seen) ⊆ s' →
            (sanVF h f v' s' rs').isSome = true := by
          intro v' s' rs' hv' hsub'
          apply ihf v' s' rs' hv'
          have hle := Finset.card_le_card (unvisited_antitone h hsub')
          omega
        cases hnd : h.nodes[a] with
        | hobj fs =>
          have hfields : ∀ kv ∈ fs, refsValidVB h kv.2 = true := by
            rw [hnd] at hnodevalid
            simp only [nodeValidB, List.all_eq_true] at hnodevalid
            intro kv hkv
            exact hnodevalid kv hkv
          have hres := sanFieldsAux_total (sanVF h f) (a :: seen)
            (fun v' => refsValidVB h v' = true)
            (fun v' s' rs' j s2 r2 hh => sanVF_mono h f v' s' rs' j s2 r2 hh)
            hfuelrec fs (a :: seen) rs hfields (List.Subset.refl _)
          rw [hnd] at hnode
          cases hsf : sanFieldsAux (sanVF h f) fs (a :: seen) rs with
          | none => rw [hsf] at hres; simp at hres
          | some p =>
            obtain ⟨o, s', r'⟩ := p
            simp [sanVF, hmem, hnode, hsf]
        | harr xs =>
          have hitems : ∀ v' ∈ xs, refsValidVB h v' = true := by
            rw [hnd] at hnodevalid
            simp only [nodeValidB, List.all_eq_true] at hnodevalid
            intro v' hv'
            exact hnodevalid v' hv'
          have hres := sanItemsAux_total (sanVF h f) (a :: seen)
            (fun v' => refsValidVB h v' = true)
            (fun v' s' rs' j s2 r2 hh => sanVF_mono h f v' s' rs' j s2 r2 hh)
            hfuelrec xs (a :: seen) rs hitems (List.Subset.refl _)
          rw [hnd] at hnode
          cases hsf : sanItemsAux (sanVF h f) xs (a :: seen) rs with
          | none => rw [hsf] at hres; simp at hres
          | some p =>
            obtain ⟨o, s', r'⟩ := p
            simp [sanVF, hmem, hnode, hsf]

/-- `sanitize` is total on every well-formed heap, cyclic or not. -/
theorem sanitizeJS_total (h : Heap) (v : HValue) (rs : List Nat)
    (hwf : wfHeap h = true) (hv : refsValidVB h v = true) :
    (sanitizeJS h v rs).isSome = true := by
  cases v with
  | hnull => simp [sanitizeJS]
  | hbool b => simp [sanitizeJS]
  | hnum n => simp [sanitizeJS]
  | hstr s => simp [sanitizeJS]
  | href a =>
    have hcard : (unvisited h ([] : List Nat)).card < fuelFor h := by
      have hle : (unvisited h ([] : List Nat)).card ≤ h.nodes.length := by
        have hfl := Finset.card_filter_le (Finset.range h.nodes.length)
          (fun x => x ∉ ([] : List Nat))
        rw [Finset.card_range] at hfl
        exact hfl
      simp only [fuelFor]
      omega
    have htot := sanVF_total h hwf (fuelFor h) (HValue.href a) [] rs hv hcard
    cases hres : sanVF h (fuelFor h) (HValue.href a) [] rs with
    | none => rw [hres] at htot; simp at htot
    | some p =>
      obtain ⟨j, s', r'⟩ := p
      simp [sanitizeJS, hres]

/-- C6: `sanitize` is total: on every well-formed heap (including arbitrarily
cyclic object graphs) it produces a result — the fuel bound `|heap| + 1` is
never exhausted, which is exactly the termination argument for the source
recursion — and revisiting an already-seen composite value short-circuits to
the fixed marker `'[Circular Reference]'` instead of recursing.  (The
embedding has no exceptions, so the `try/catch` fallback to
`'[sanitization failed]'` is unreachable.) -/
theorem claim6_sanitize_total :
    (∀ (h : Heap) (v : HValue) (rs : List Nat), wfHeap h = true →
        refsValidVB h v = true → (sanitizeJS h v rs).isSome = true) ∧
      (∀ (h : Heap) (fuel : Nat) (a : Nat) (seen rs : List Nat), a ∈ seen →
        sanVF h fuel (HValue.href a) seen rs
          = some (JValue.vstr "[Circular Reference]", seen, rs)) :=
  ⟨fun h v rs hwf hv => sanitizeJS_total h v rs hwf hv,
   fun h fuel a seen rs hmem => by cases fuel <;> simp [sanVF, hmem]⟩

/-- C6 witness: the self-referential object `x = {name: "john", self: x}` is
sanitized successfully, with the cycle marked. -/
theorem claim6_sanitize_total_witness :
    wfHeap heapCyc = true ∧ refsValidVB heapCyc (HValue.href 0) = true ∧
      (sanitizeJS heapCyc (HValue.href 0) rsInit).isSome = true ∧
      ((0 : Nat) ∈ [0] ∧
        sanVF heapCyc 1 (HValue.href 0) [0] rsInit
          = some (JValue.vstr "[Circular Reference]", [0], rsInit)) ∧
      sanitizeJS heapCyc (HValue.href 0) rsInit
        = some (JValue.vobj [("name", JValue.vstr "john"),
                            ("self", JValue.vstr "[Circular Reference]")], rsInit) :=
  ⟨rfl, rfl, claim6_sanitize_total.1 heapCyc (HValue.href 0) rsInit rfl rfl,
    ⟨by simp, claim6_sanitize_total.2 heapCyc 1 0 [0] rsInit (by simp)⟩, rfl⟩

/-- C10: the per-call visited set is only ever added to, never removed from
when a subtree finishes; consequently, in the acyclic graph
`root = {a: child, b: child}` with the same `child = {x: "v"}` reachable via
two distinct paths, both `sanitize` and `safeStringify` replace the second
occurrence with `'[Circular Reference]'` even though no cycle exists. -/
theorem claim10_shared_refs_marked :
    (∀ (h : Heap) (fuel : Nat) (v : HValue) (seen rs : List Nat) (j : JValue)
        (seen' rs' : List Nat),
        sanVF h fuel v seen rs = some (j, seen', rs') → seen ⊆ seen') ∧
      sanitizeJS heapShared (HValue.href 0) rsInit
        = some (JValue.vobj [("a", JValue.vobj [("x", JValue.vstr "v")]),
                            ("b", JValue.vstr "[Circular Reference]")], rsInit) ∧
      safeStringifyJS heapShared (HValue.href 0)
        = some "\x7b\"a\":\x7b\"x\":\"v\"\x7d,\"b\":\"[Circular Reference]\"\x7d" :=
  ⟨fun h fuel v seen rs j seen' rs' hh => sanVF_mono h fuel v seen rs j seen' rs' hh,
   rfl, rfl⟩

/-- C10 witness: the visited-set monotonicity instantiated on the concrete
shared-subobject run (the set grows from `[]` to `[1, 0]` and the `child`
address 1 is never released). -/
theorem claim10_shared_refs_marked_witness :
    sanVF heapShared (fuelFor heapShared) (HValue.href 0) [] rsInit
        = some (JValue.vobj [("a", JValue.vobj [("x", JValue.vstr "v")]),
                            ("b", JValue.vstr "[Circular Reference]")], [1, 0], rsInit) ∧
      ([] : List Nat) ⊆ [1, 0] :=
  ⟨rfl,
    claim10_shared_refs_marked.1 heapShared (fuelFor heapShared) (HValue.href 0) []
      rsInit _ [1, 0] rsInit rfl⟩

/-- C2 witness: 1001 pushed events leave the most recent 1000, in order. -/
theorem claim2_bounded_memory_witness :
    (busyState Nat).queue = [] ∧ (busyState Nat).flushing = true ∧
      (busyState Nat).shuttingDown = false ∧
      MAX_QUEUE_SIZE < (List.range 1001).length ∧
      ((runQ (busyState Nat) ((List.range 1001).map QStep.push)).queue
          = (List.range 1001).drop ((List.range 1001).length - MAX_QUEUE_SIZE) ∧
        (runQ (busyState Nat) ((List.range 1001).map QStep.push)).queue.length
          = MAX_QUEUE_SIZE ∧
        (∀ (q : List Nat) (e : Nat), MAX_QUEUE_SIZE ≤ q.length →
          pushQ q e = q.drop 1 ++ [e])) :=
  ⟨rfl, rfl, rfl, by simp [MAX_QUEUE_SIZE],
    claim2_bounded_memory (busyState Nat) (List.range 1001) rfl rfl rfl
      (by simp [MAX_QUEUE_SIZE])⟩

end LogSentinel
